import Mathlib

/-!
Verification of the keystroke-delivery core of `src/typer.py`.

The development shallowly embeds the timing model (`BASE_SPEED`,
`calculate_delay`), the character support predicate
(`is_supported_character`) and the keystroke engine
(`KeystrokeEngine.type_text`) of the source file.  Numeric constants that
the Python source writes as floating-point literals (0.300, 0.9, ...) are
embedded as the corresponding rationals; the speed factor reaches the
table lookup through Python's `int(...)`, so it is embedded as an integer.

The engine's interaction with its environment (the two threading flags and
the injection adapter `send_key` / `send_key_combination`) is embedded as
an oracle `Nat -> StepEnv` giving, for each character position, the flag
values the engine reads at its check points and the outcome of the
injection call.  Wall-clock effects (`time.sleep`, the randomized
variance of `add_human_variance`) have no influence on the values the
engine computes or yields and are not part of the embedded state.
-/

/-- From `src/typer.py`: the `BASE_SPEED` dict, a lookup from the
(truncated) speed factor to the base per-character delay in seconds. -/
def BASE_SPEED (s : Int) : Option ℚ :=
  if s = 1 then some (300/1000)
  else if s = 2 then some (250/1000)
  else if s = 3 then some (200/1000)
  else if s = 4 then some (150/1000)
  else if s = 5 then some (120/1000)
  else if s = 6 then some (100/1000)
  else if s = 7 then some (80/1000)
  else if s = 8 then some (60/1000)
  else if s = 9 then some (40/1000)
  else if s = 10 then some (20/1000)
  else none

/-- `BASE_SPEED.get(int(speed_factor), 0.120)` as it appears in
`calculate_delay` (and in `estimate_typing_time`). -/
def base_delay (s : Int) : ℚ := (BASE_SPEED s).getD (120/1000)

/-- From `src/typer.py`: `EASY_CHARS = set('etaoinsrhldcu ')`. -/
def EASY_CHARS : List Char := "etaoinsrhldcu ".toList

/-- From `src/typer.py`: `MEDIUM_CHARS = set('mfpgwybvkj')`. -/
def MEDIUM_CHARS : List Char := "mfpgwybvkj".toList

/-- From `src/typer.py`: `HARD_CHARS = set('xqz')`. -/
def HARD_CHARS : List Char := "xqz".toList

/-- From `src/typer.py`: `PUNCTUATION = set('.,;:\'"-!?')`.
(The apostrophe and the quote are written with escapes.) -/
def PUNCTUATION : List Char := ".,;:\x27\"-!?".toList

/-- From `src/typer.py`: `SPECIAL_CHARS = set('@#$%^&*()_+{}|:<>?~')`.
(The braces are written with escapes.) -/
def SPECIAL_CHARS : List Char := "@#$%^&*()_+\x7b\x7d|:<>?~".toList

/-- From `src/typer.py`: `SUPPORTED_CHARS`, the union of ASCII letters,
digits, space/tab/newline, `PUNCTUATION` and `SPECIAL_CHARS`.  The Python
value is a set; a list with the same members is membership-equivalent. -/
def SUPPORTED_CHARS : List Char :=
  "abcdefghijklmnopqrstuvwxyzABCDEFGHIJKLMNOPQRSTUVWXYZ0123456789".toList
    ++ " \t\n".toList ++ PUNCTUATION ++ SPECIAL_CHARS

/-- The `delay_factor` chain of `elif`s inside `calculate_delay` in
`src/typer.py`, in source order: easy, medium, hard, punctuation,
special, newline, tab, default. -/
def delay_factor (c : Char) : ℚ :=
  if c ∈ EASY_CHARS then 9/10
  else if c ∈ MEDIUM_CHARS then 1
  else if c ∈ HARD_CHARS then 12/10
  else if c ∈ PUNCTUATION then 11/10
  else if c ∈ SPECIAL_CHARS then 13/10
  else if c = '\n' then 15/10
  else if c = '\t' then 12/10
  else 1

/-- From `src/typer.py`: `calculate_delay(char, speed_factor)` returns
`base_delay * delay_factor`. -/
def calculate_delay (c : Char) (speed : Int) : ℚ :=
  base_delay speed * delay_factor c

/-- The character classes named by the specification's Character
Classifier. -/
inductive CharClass
  | easy | medium | hard | punctuation | special | newline | tab | other
deriving DecidableEq

/-- Modelled from the spec: `classify(char)`, the Character Classifier.
The source has no separate classify function; this definition names the
class selected by the branch of `calculate_delay`'s `elif` chain that
fires for `c`, in the source's checking order. -/
def classify (c : Char) : CharClass :=
  if c ∈ EASY_CHARS then .easy
  else if c ∈ MEDIUM_CHARS then .medium
  else if c ∈ HARD_CHARS then .hard
  else if c ∈ PUNCTUATION then .punctuation
  else if c ∈ SPECIAL_CHARS then .special
  else if c = '\n' then .newline
  else if c = '\t' then .tab
  else .other

/-- The multiplicative delay factor attached to each character class
(the numbers assigned by the branches of `calculate_delay`). -/
def classFactor : CharClass → ℚ
  | .easy => 9/10
  | .medium => 1
  | .hard => 12/10
  | .punctuation => 11/10
  | .special => 13/10
  | .newline => 15/10
  | .tab => 12/10
  | .other => 1

/-- From `src/typer.py`: `is_supported_character(char)`.  The source
checks membership in `SUPPORTED_CHARS`, then returns `False` for control
characters (`ord < 32`), `False` for code points above 127, and `False`
in the remaining case. -/
def is_supported_character (c : Char) : Bool :=
  if c ∈ SUPPORTED_CHARS then true
  else if c.toNat < 32 then false
  else if 127 < c.toNat then false
  else false

/-- A key action handed to the injection adapter: a plain key press
(`send_key`) or a modifier+key combination (`send_key_combination`). -/
inductive KeyAction
  | key (k : String)
  | combo (modifier k : String)
deriving DecidableEq

/-- From `src/typer.py`: the `KeystrokeEngine.special_chars` table mapping
shifted symbols to their modifier+key pair. -/
def special_chars : List (Char × String × String) :=
  [ ('!', "shift", "1"), ('@', "shift", "2"), ('#', "shift", "3"),
    ('$', "shift", "4"), ('%', "shift", "5"), ('^', "shift", "6"),
    ('&', "shift", "7"), ('*', "shift", "8"), ('(', "shift", "9"),
    (')', "shift", "0"), ('_', "shift", "-"), ('+', "shift", "="),
    ('\x7b', "shift", "["), ('\x7d', "shift", "]"), ('|', "shift", "\\"),
    (':', "shift", ";"), ('"', "shift", "\x27"), ('<', "shift", ","),
    ('>', "shift", "."), ('?', "shift", "/"), ('~', "shift", "\x60") ]

/-- The action `type_text` resolves for a character before invoking the
injection adapter: newline and tab map to the named keys, table entries
to a combination, anything else to a plain key press of the character. -/
def resolveAction (c : Char) : KeyAction :=
  if c = '\n' then .key "enter"
  else if c = '\t' then .key "tab"
  else
    match (special_chars.find? (fun p => p.1 == c)).map (fun p => p.2) with
    | some (m, k) => .combo m k
    | none => .key c.toString

/-- Outcome of one injection-adapter call as the engine sees it: the
adapter returned a boolean, or the call raised an unexpected exception
(caught by the `except` clause of the per-character step). -/
inductive InjectOutcome
  | returns (b : Bool)
  | raises
deriving DecidableEq

/-- The values the engine reads from its environment during the
per-character step for one position:
`stopTop` is `stop_event.is_set()` at the top of the loop body;
`pauseObserved` records whether `pause_event.is_set()` held, i.e. whether
the pause-wait loop was entered;
`stopAfterPause` is the value of the stop flag at the moment the
pause-wait loop exits (the loop condition
`pause_event.is_set() and not stop_event.is_set()` has just gone false);
`inject` is the outcome of the injection call for the character.
Note that the source never reads the stop flag again between the pause
loop and the injection call, so the transition function below does not
depend on `pauseObserved` or `stopAfterPause`. -/
structure StepEnv where
  stopTop : Bool
  pauseObserved : Bool
  stopAfterPause : Bool
  inject : InjectOutcome
deriving DecidableEq

/-- Everything observable about one run of `type_text`:
the yielded `(progress, character, success)` observations, the final
`failed_keys` list, the positions for which the injection adapter was
invoked (a `send_key` or `send_key_combination` call was made), the final
`chars_typed` counter, and whether the run left the loop through the
`break` of the stop check (`stopped = true`, spec state Stopped) or by
consuming the whole text (`stopped = false`, spec state Completed). -/
structure RunResult where
  observations : List (ℚ × Char × Bool)
  failed_keys : List (Nat × Char)
  injected : List Nat
  chars_typed : Nat
  stopped : Bool
deriving DecidableEq

/-- Whether an injection outcome is a normal return (no exception). -/
def isReturns : InjectOutcome → Bool
  | .returns _ => true
  | .raises => false

/-- Whether the step's injection call reported success (`returns true`). -/
def isSuccessB (e : StepEnv) : Bool :=
  match e.inject with
  | .returns b => b
  | .raises => false

/-- The body of `KeystrokeEngine.type_text`'s `for i, char in
enumerate(text)` loop, from position `i` on, with `chars` the current
`chars_typed` counter and `total` the length of the whole text.
Faithful to the source order: stop check (`break`), pause-wait loop (no
observable effect), injection; on a normal return `b` the failed-keys
append (when `b` is false), the `chars_typed` increment, and the yield of
`(chars_typed/total_chars, char, b)`; on an exception the failed-keys
append and the yield of `(chars_typed/total_chars, char, False)` with the
counter not incremented. -/
def typeTextGo (total : Nat) (env : Nat → StepEnv) :
    Nat → Nat → List Char → RunResult
  | _, chars, [] => ⟨[], [], [], chars, false⟩
  | i, chars, c :: rest =>
    if (env i).stopTop then ⟨[], [], [], chars, true⟩
    else
      match (env i).inject with
      | .returns b =>
        let r := typeTextGo total env (i+1) (chars+1) rest
        ⟨(((chars+1 : Nat) : ℚ) / (total : ℚ), c, b) :: r.observations,
          (if b then [] else [(i, c)]) ++ r.failed_keys,
          i :: r.injected, r.chars_typed, r.stopped⟩
      | .raises =>
        let r := typeTextGo total env (i+1) chars rest
        ⟨(((chars : Nat) : ℚ) / (total : ℚ), c, false) :: r.observations,
          (i, c) :: r.failed_keys,
          i :: r.injected, r.chars_typed, r.stopped⟩

/-- From `src/typer.py`: `KeystrokeEngine.type_text(text, speed_factor,
stop_event, pause_event)`, run against the environment oracle `env`.
The speed factor only scales the slept delays, which carry no observable
state, so it does not appear. -/
def type_text (text : List Char) (env : Nat → StepEnv) : RunResult :=
  typeTextGo text.length env 0 0 text

/-- `enumerate(text)` from position `i` on. -/
def indexedFrom : Nat → List Char → List (Nat × Char)
  | _, [] => []
  | i, c :: rest => (i, c) :: indexedFrom (i+1) rest

/-- Number of positions in `[i, i+m)` whose injection call returns
normally (does not raise). -/
def retCount (env : Nat → StepEnv) : Nat → Nat → Nat
  | _, 0 => 0
  | i, m+1 => (if isReturns (env i).inject then 1 else 0) + retCount env (i+1) m

/-- Number of positions in `[i, i+m)` whose injection call raises. -/
def raiseCount (env : Nat → StepEnv) : Nat → Nat → Nat
  | _, 0 => 0
  | i, m+1 =>
    (if isReturns (env i).inject then 0 else 1) + raiseCount env (i+1) m

/-- Environment in which no flag is ever seen set and every injection
call succeeds. -/
def envAllOk : Nat → StepEnv := fun _ => ⟨false, false, false, .returns true⟩

/-- Environment for the C1 counterexample: at every position the stop
flag is clear at the top of the step, the pause flag is seen set, and the
stop flag is set by the time the pause-wait loop exits. -/
def envC1 : Nat → StepEnv := fun _ => ⟨false, true, true, .returns true⟩

/-- Environment in which stop becomes set during the pause wait of
position 0 and, the stop flag being one-way, stays set from position 1
on. -/
def envC1W : Nat → StepEnv := fun j =>
  if j = 0 then ⟨false, true, true, .returns true⟩
  else ⟨true, false, false, .returns true⟩

/-- Environment in which the stop flag is first seen set at the top of
the step for position `k`. -/
def envStopAt (k : Nat) : Nat → StepEnv := fun j =>
  if j < k then ⟨false, false, false, .returns true⟩
  else ⟨true, false, false, .returns true⟩

/-- Environment in which exactly the injection call at position `k`
reports failure (returns `False`). -/
def envFailAt (k : Nat) : Nat → StepEnv := fun j =>
  ⟨false, false, false, .returns (j != k)⟩

/-- Environment in which exactly the injection call at position `k`
raises. -/
def envRaiseAt (k : Nat) : Nat → StepEnv := fun j =>
  ⟨false, false, false, if j = k then .raises else .returns true⟩

theorem typeTextGo_run (env : Nat → StepEnv) (total : Nat) :
    ∀ (rest : List Char) (i chars k : Nat),
      (∀ j, j < k → (env (i + j)).stopTop = false) →
      k ≤ rest.length →
      (k < rest.length → (env (i + k)).stopTop = true) →
      (typeTextGo total env i chars rest).observations.length = k ∧
      (typeTextGo total env i chars rest).observations.map (fun o => o.2.1) = rest.take k ∧
      (typeTextGo total env i chars rest).injected = List.range' i k ∧
      (typeTextGo total env i chars rest).stopped = decide (k < rest.length) := by
  intro rest
  induction rest with
  | nil =>
    intro i chars k h1 h2 h3
    have hk : k = 0 := Nat.le_zero.mp h2
    subst hk
    simp [typeTextGo]
  | cons c rest ih =>
    intro i chars k h1 h2 h3
    cases k with
    | zero =>
      have hs : (env (i + 0)).stopTop = true := h3 (by simp)
      rw [Nat.add_zero] at hs
      simp [typeTextGo, hs]
    | succ m =>
      have hs : (env i).stopTop = false := by
        have := h1 0 (Nat.succ_pos m)
        rwa [Nat.add_zero] at this
      have h1' : ∀ j, j < m → (env (i + 1 + j)).stopTop = false := by
        intro j hj
        have h := h1 (j+1) (by omega)
        have e : i + (j+1) = i + 1 + j := by omega
        rwa [e] at h
      have h2' : m ≤ rest.length := by
        simpa using h2
      have h3' : m < rest.length → (env (i + 1 + m)).stopTop = true := by
        intro hm
        have h := h3 (by simpa using hm)
        have e : i + (m+1) = i + 1 + m := by omega
        rwa [e] at h
      cases hinj : (env i).inject with
      | returns b =>
        obtain ⟨l1, l2, l3, l4⟩ := ih (i+1) (chars+1) m h1' h2' h3'
        simp [typeTextGo, hs, hinj, l1, l2, l3, l4, List.range'_succ]
      | raises =>
        obtain ⟨l1, l2, l3, l4⟩ := ih (i+1) chars m h1' h2' h3'
        simp [typeTextGo, hs, hinj, l1, l2, l3, l4, List.range'_succ]

theorem retCount_le (env : Nat → StepEnv) :
    ∀ (m i : Nat), retCount env i m ≤ m := by
  intro m
  induction m with
  | zero => intro i; simp [retCount]
  | succ n ih =>
    intro i
    simp only [retCount]
    have := ih (i+1)
    split <;> omega

theorem retCount_add_raiseCount (env : Nat → StepEnv) :
    ∀ (m i : Nat), retCount env i m + raiseCount env i m = m := by
  intro m
  induction m with
  | zero => intro i; simp [retCount, raiseCount]
  | succ n ih =>
    intro i
    simp only [retCount, raiseCount]
    have := ih (i+1)
    split <;> omega

theorem retCount_succ_right (env : Nat → StepEnv) :
    ∀ (m i : Nat),
      retCount env i (m+1)
        = retCount env i m + (if isReturns (env (i+m)).inject then 1 else 0) := by
  intro m
  induction m with
  | zero => intro i; simp [retCount]
  | succ n ih =>
    intro i
    have u1 : retCount env i (n+1+1)
        = (if isReturns (env i).inject then 1 else 0) + retCount env (i+1) (n+1) := rfl
    have u2 : retCount env i (n+1)
        = (if isReturns (env i).inject then 1 else 0) + retCount env (i+1) n := rfl
    have e : i + 1 + n = i + (n + 1) := by omega
    rw [u1, u2, ih (i+1), e]
    omega

theorem retCount_all_returns (env : Nat → StepEnv) :
    ∀ (m i : Nat), (∀ j, j < m → isReturns (env (i + j)).inject = true) →
      retCount env i m = m := by
  intro m
  induction m with
  | zero => intro i _; simp [retCount]
  | succ n ih =>
    intro i h
    have h0 : isReturns (env i).inject = true := by
      have := h 0 (Nat.succ_pos n)
      rwa [Nat.add_zero] at this
    have h' : ∀ j, j < n → isReturns (env (i + 1 + j)).inject = true := by
      intro j hj
      have hh := h (j+1) (by omega)
      have e : i + (j+1) = i + 1 + j := by omega
      rwa [e] at hh
    simp [retCount, h0, ih (i+1) h']
    omega

theorem typeTextGo_progress (env : Nat → StepEnv) (total : Nat) :
    ∀ (rest : List Char) (i chars k : Nat), k < rest.length →
      (∀ j, j ≤ k → (env (i + j)).stopTop = false) →
      ((typeTextGo total env i chars rest).observations.map (fun o => o.1))[k]?
        = some (((chars + retCount env i (k+1) : Nat) : ℚ) / (total : ℚ)) := by
  intro rest
  induction rest with
  | nil =>
    intro i chars k hk
    simp at hk
  | cons c rest ih =>
    intro i chars k hk hstop
    have hs : (env i).stopTop = false := by
      have := hstop 0 (Nat.zero_le k)
      rwa [Nat.add_zero] at this
    cases k with
    | zero =>
      cases hinj : (env i).inject with
      | returns b =>
        simp [typeTextGo, hs, hinj, retCount, isReturns]
      | raises =>
        simp [typeTextGo, hs, hinj, retCount, isReturns]
    | succ m =>
      have hm : m < rest.length := by simpa using hk
      have hstop' : ∀ j, j ≤ m → (env (i + 1 + j)).stopTop = false := by
        intro j hj
        have h := hstop (j+1) (by omega)
        have e : i + (j+1) = i + 1 + j := by omega
        rwa [e] at h
      cases hinj : (env i).inject with
      | returns b =>
        have hih := ih (i+1) (chars+1) m hm hstop'
        have hrc : chars + retCount env i (m+1+1) = chars + 1 + retCount env (i+1) (m+1) := by
          have u : retCount env i (m+1+1)
              = (if isReturns (env i).inject then 1 else 0) + retCount env (i+1) (m+1) := rfl
          rw [u, hinj]
          simp [isReturns]
          omega
        simp only [typeTextGo, hs, hinj, Bool.false_eq_true, if_false, List.map_cons,
          List.getElem?_cons_succ]
        rw [hih, hrc]
      | raises =>
        have hih := ih (i+1) chars m hm hstop'
        have hrc : chars + retCount env i (m+1+1) = chars + retCount env (i+1) (m+1) := by
          have u : retCount env i (m+1+1)
              = (if isReturns (env i).inject then 1 else 0) + retCount env (i+1) (m+1) := rfl
          rw [u, hinj]
          simp [isReturns]
        simp only [typeTextGo, hs, hinj, Bool.false_eq_true, if_false, List.map_cons,
          List.getElem?_cons_succ]
        rw [hih, hrc]

theorem typeTextGo_noStop (env : Nat → StepEnv) (total : Nat) :
    ∀ (rest : List Char) (i chars : Nat),
      (∀ j, j < rest.length → (env (i + j)).stopTop = false) →
      (typeTextGo total env i chars rest).failed_keys
        = (indexedFrom i rest).filter (fun p => !(isSuccessB (env p.1))) ∧
      (typeTextGo total env i chars rest).observations.map (fun o => o.2.2)
        = (indexedFrom i rest).map (fun p => isSuccessB (env p.1)) ∧
      (typeTextGo total env i chars rest).chars_typed
        = chars + retCount env i rest.length := by
  intro rest
  induction rest with
  | nil =>
    intro i chars _
    simp [typeTextGo, indexedFrom, retCount]
  | cons c rest ih =>
    intro i chars h
    have hs : (env i).stopTop = false := by
      have := h 0 (Nat.succ_pos _)
      rwa [Nat.add_zero] at this
    have h' : ∀ j, j < rest.length → (env (i + 1 + j)).stopTop = false := by
      intro j hj
      have hh := h (j+1) (by simpa using hj)
      have e : i + (j+1) = i + 1 + j := by omega
      rwa [e] at hh
    cases hinj : (env i).inject with
    | returns b =>
      obtain ⟨l1, l2, l3⟩ := ih (i+1) (chars+1) h'
      cases b with
      | true =>
        simp [typeTextGo, hs, hinj, l1, l2, l3, indexedFrom, isSuccessB,
          retCount, isReturns]
        omega
      | false =>
        simp [typeTextGo, hs, hinj, l1, l2, l3, indexedFrom, isSuccessB,
          retCount, isReturns]
        omega
    | raises =>
      obtain ⟨l1, l2, l3⟩ := ih (i+1) chars h'
      simp [typeTextGo, hs, hinj, l1, l2, l3, indexedFrom, isSuccessB,
        retCount, isReturns]

theorem natDiv_cast_le_succ (a t : Nat) :
    ((a : ℚ)) / (t : ℚ) ≤ (((a+1 : Nat) : ℚ)) / (t : ℚ) := by
  rcases Nat.eq_zero_or_pos t with h | h
  · subst h; simp
  · have ht : (0:ℚ) < (t:ℚ) := by exact_mod_cast h
    rw [div_le_div_iff_of_pos_right ht]
    exact_mod_cast Nat.le_succ a

theorem typeTextGo_chain (env : Nat → StepEnv) (total : Nat) :
    ∀ (rest : List Char) (i chars : Nat),
      List.Chain' (fun a b => a ≤ b)
        (((chars : ℚ) / (total : ℚ))
          :: (typeTextGo total env i chars rest).observations.map (fun o => o.1)) := by
  intro rest
  induction rest with
  | nil => intro i chars; simp [typeTextGo]
  | cons c rest ih =>
    intro i chars
    by_cases hs : (env i).stopTop = true
    · simp [typeTextGo, hs]
    · rw [Bool.not_eq_true] at hs
      cases hinj : (env i).inject with
      | returns b =>
        have := ih (i+1) (chars+1)
        simp only [typeTextGo, hs, hinj, Bool.false_eq_true, if_false,
          List.map_cons]
        exact List.Chain'.cons (natDiv_cast_le_succ chars total) this
      | raises =>
        have := ih (i+1) chars
        simp only [typeTextGo, hs, hinj, Bool.false_eq_true, if_false,
          List.map_cons]
        exact List.Chain'.cons le_rfl this

theorem indexedFrom_mem_le :
    ∀ (l : List Char) (i : Nat) (p : Nat × Char), p ∈ indexedFrom i l → i ≤ p.1 := by
  intro l
  induction l with
  | nil => intro i p h; simp [indexedFrom] at h
  | cons c rest ih =>
    intro i p h
    rcases (List.mem_cons.mp h) with h | h
    · subst h; exact Nat.le_refl i
    · exact Nat.le_of_lt (Nat.lt_of_lt_of_le (Nat.lt_succ_self i) (ih (i+1) p h))

theorem indexedFrom_pairwise :
    ∀ (l : List Char) (i : Nat),
      List.Pairwise (fun a b : Nat × Char => a.1 < b.1) (indexedFrom i l) := by
  intro l
  induction l with
  | nil => intro i; simp [indexedFrom]
  | cons c rest ih =>
    intro i
    refine List.Pairwise.cons ?_ (ih (i+1))
    intro p hp
    exact Nat.lt_of_lt_of_le (Nat.lt_succ_self i) (indexedFrom_mem_le rest (i+1) p hp)

/-- Claim C2: if the Stop flag is observed set at the top of the
per-character step for position `k`, `type_text` terminates in Stopped
having yielded exactly `k` observations, one per character of the prefix
`text[0..k-1]` in input order, and no position `>= k` is ever passed to
the injection adapter. -/
theorem c2_stop_yields_exact_prefix :
    ∀ (text : List Char) (env : Nat → StepEnv) (k : Nat),
      k < text.length →
      (∀ j, j < k → (env j).stopTop = false) →
      (env k).stopTop = true →
      (type_text text env).observations.length = k ∧
      (type_text text env).observations.map (fun o => o.2.1) = text.take k ∧
      (type_text text env).injected = List.range k ∧
      (type_text text env).stopped = true := by
  intro text env k hk h1 h2
  have h1' : ∀ j, j < k → (env (0 + j)).stopTop = false := by
    intro j hj
    rw [Nat.zero_add]
    exact h1 j hj
  have h3 : k < text.length → (env (0 + k)).stopTop = true := by
    intro _
    rw [Nat.zero_add]
    exact h2
  obtain ⟨l1, l2, l3, l4⟩ :=
    typeTextGo_run env text.length text 0 0 k h1' (Nat.le_of_lt hk) h3
  refine ⟨l1, l2, ?_, ?_⟩
  · rw [show (type_text text env).injected = List.range' 0 k from l3,
      List.range_eq_range']
  · rw [show (type_text text env).stopped = decide (k < text.length) from l4]
    exact decide_eq_true hk

/-- Claim C1 counterexample: with the pause flag observed set for
position 0 and the stop flag set by the time the pause-wait loop exits
(stop clear at the top of the step), the engine still invokes the
injection adapter for position 0. -/
theorem c1_counterexample :
    (envC1 0).stopTop = false ∧ (envC1 0).pauseObserved = true ∧
    (envC1 0).stopAfterPause = true ∧
    (type_text ['a'] envC1).injected = [0] := by decide

/-- Claim C1 as amended: when Stop becomes set while the engine waits in
the Pause loop for position `k` (and, Stop being one-way, remains set),
the character at position `k` is still delivered to the injection
adapter; the engine then stops at the top of the next step, so the
injected positions are exactly `0..k`. -/
theorem c1_stop_during_pause_delivers_current :
    ∀ (text : List Char) (env : Nat → StepEnv) (k : Nat),
      k < text.length →
      (∀ j, j < k → (env j).stopTop = false) →
      (env k).stopTop = false →
      (env k).pauseObserved = true →
      (env k).stopAfterPause = true →
      (∀ j, k < j → (env j).stopTop = true) →
      k ∈ (type_text text env).injected ∧
      (type_text text env).injected = List.range (k+1) := by
  intro text env k hk h1 h2 _ _ hmono
  have h1' : ∀ j, j < k + 1 → (env (0 + j)).stopTop = false := by
    intro j hj
    rw [Nat.zero_add]
    rcases Nat.lt_or_ge j k with h | h
    · exact h1 j h
    · have : j = k := by omega
      rw [this]
      exact h2
  have h3 : k + 1 < text.length → (env (0 + (k + 1))).stopTop = true := by
    intro _
    rw [Nat.zero_add]
    exact hmono (k+1) (Nat.lt_succ_self k)
  obtain ⟨l1, l2, l3, l4⟩ :=
    typeTextGo_run env text.length text 0 0 (k+1) h1' hk h3
  have hr : (type_text text env).injected = List.range (k+1) := by
    rw [show (type_text text env).injected = List.range' 0 (k+1) from l3,
      List.range_eq_range']
  exact ⟨by rw [hr]; exact List.mem_range.mpr (Nat.lt_succ_self k), hr⟩

/-- Claim C3: progress is monotonically non-decreasing; with Stop never
set and every injection call returning normally, `type_text` yields one
observation per character and the final progress is exactly 1; in
particular typing "Hi!" against an always-succeeding adapter yields 3
observations, final progress 1, no failed keys, and the Completed
outcome. -/
theorem c3_progress_monotone_completion :
    (∀ (text : List Char) (env : Nat → StepEnv),
      List.Chain' (fun a b => a ≤ b)
        ((type_text text env).observations.map (fun o => o.1))) ∧
    (∀ (text : List Char) (env : Nat → StepEnv),
      (∀ j, j < text.length → (env j).stopTop = false) →
      (∀ j, j < text.length → isReturns (env j).inject = true) →
      (type_text text env).observations.length = text.length ∧
      (0 < text.length →
        ((type_text text env).observations.map (fun o => o.1)).getLast? = some 1) ∧
      (type_text text env).stopped = false) ∧
    ((type_text "Hi!".toList envAllOk).observations.length = 3 ∧
      ((type_text "Hi!".toList envAllOk).observations.map (fun o => o.1)).getLast?
        = some 1 ∧
      (type_text "Hi!".toList envAllOk).failed_keys = [] ∧
      (type_text "Hi!".toList envAllOk).stopped = false) := by
  refine ⟨?_, ?_, ?_, ?_, ?_, ?_⟩
  · intro text env
    have h := typeTextGo_chain env text.length text 0 0
    exact h.tail
  · intro text env hstop hret
    have h1' : ∀ j, j < text.length → (env (0 + j)).stopTop = false := by
      intro j hj
      rw [Nat.zero_add]
      exact hstop j hj
    have h3 : text.length < text.length → (env (0 + text.length)).stopTop = true := by
      intro h
      exact absurd h (Nat.lt_irrefl _)
    obtain ⟨l1, l2, l3, l4⟩ :=
      typeTextGo_run env text.length text 0 0 text.length h1' (Nat.le_refl _) h3
    refine ⟨l1, ?_, ?_⟩
    · intro hpos
      have hk : text.length - 1 < text.length := by omega
      have hstop' : ∀ j, j ≤ text.length - 1 → (env (0 + j)).stopTop = false := by
        intro j hj
        rw [Nat.zero_add]
        exact hstop j (by omega)
      have hp := typeTextGo_progress env text.length text 0 0 (text.length - 1) hk hstop'
      have hr : retCount env 0 (text.length - 1 + 1) = text.length := by
        rw [show text.length - 1 + 1 = text.length from by omega]
        exact retCount_all_returns env text.length 0 (by
          intro j hj
          rw [Nat.zero_add]
          exact hret j hj)
      rw [hr, Nat.zero_add] at hp
      have hlen : ((type_text text env).observations.map (fun o => o.1)).length
          = text.length := by
        rw [List.length_map]
        exact l1
      rw [List.getLast?_eq_getElem?, hlen]
      rw [show (type_text text env).observations = (typeTextGo text.length env 0 0 text).observations from rfl]
      rw [hp]
      have hne : ((text.length : ℚ)) ≠ 0 := by
        exact_mod_cast Nat.pos_iff_ne_zero.mp hpos
      rw [div_self hne]
    · rw [show (type_text text env).stopped = decide (text.length < text.length) from l4]
      simp
  · decide
  · norm_num [type_text, typeTextGo, envAllOk]
  · decide
  · decide

/-- Claim C4: per-character failures never abort the run: every
character yields an observation, the failed-keys list is exactly the
in-order list of positions whose injection returned false or raised, and
the success flag of each observation reports the injection outcome; for
"abcd" with the adapter failing only at index 2 the failed list is
`[(2, 'c')]` with 4 observations. -/
theorem c4_failures_recorded_run_continues :
    (∀ (text : List Char) (env : Nat → StepEnv),
      (∀ j, j < text.length → (env j).stopTop = false) →
      (type_text text env).observations.length = text.length ∧
      (type_text text env).failed_keys
        = (indexedFrom 0 text).filter (fun p => !(isSuccessB (env p.1))) ∧
      (type_text text env).observations.map (fun o => o.2.2)
        = (indexedFrom 0 text).map (fun p => isSuccessB (env p.1)) ∧
      List.Pairwise (fun a b : Nat × Char => a.1 < b.1)
        (type_text text env).failed_keys) ∧
    ((type_text "abcd".toList (envFailAt 2)).failed_keys = [(2, 'c')] ∧
      (type_text "abcd".toList (envFailAt 2)).observations.length = 4 ∧
      (type_text "abcd".toList (envFailAt 2)).observations.map (fun o => o.2.2)
        = [true, true, false, true]) := by
  refine ⟨?_, by decide, by decide, by decide⟩
  intro text env hstop
  have h1' : ∀ j, j < text.length → (env (0 + j)).stopTop = false := by
    intro j hj
    rw [Nat.zero_add]
    exact hstop j hj
  obtain ⟨f1, f2, f3⟩ := typeTextGo_noStop env text.length text 0 0 h1'
  have h3 : text.length < text.length → (env (0 + text.length)).stopTop = true :=
    fun h => absurd h (Nat.lt_irrefl _)
  obtain ⟨l1, _, _, _⟩ :=
    typeTextGo_run env text.length text 0 0 text.length h1' (Nat.le_refl _) h3
  refine ⟨l1, f1, f2, ?_⟩
  rw [show (type_text text env).failed_keys
      = (indexedFrom 0 text).filter (fun p => !(isSuccessB (env p.1))) from f1]
  exact List.Pairwise.sublist (List.filter_sublist _) (indexedFrom_pairwise text 0)

/-- Claim C9: an injection call that raises does not advance the
characters-typed counter: each observation's progress is the number of
non-raising positions so far over the text length, an observation for a
raising position repeats the previous progress value, and a fully
consumed text with `r > 0` raising positions ends at progress
`(n - r)/n`, strictly below 1. -/
theorem c9_raises_freeze_progress :
    ∀ (text : List Char) (env : Nat → StepEnv),
      (∀ j, j < text.length → (env j).stopTop = false) →
      (∀ k, k < text.length →
        ((type_text text env).observations.map (fun o => o.1))[k]?
          = some (((retCount env 0 (k+1) : Nat) : ℚ) / (text.length : ℚ))) ∧
      (∀ k, k < text.length → (env k).inject = InjectOutcome.raises →
        ((type_text text env).observations.map (fun o => o.1))[k]?
          = some (((retCount env 0 k : Nat) : ℚ) / (text.length : ℚ))) ∧
      (0 < raiseCount env 0 text.length →
        ((type_text text env).observations.map (fun o => o.1)).getLast?
          = some (((text.length : ℚ) - (raiseCount env 0 text.length : ℚ))
              / (text.length : ℚ)) ∧
        ((text.length : ℚ) - (raiseCount env 0 text.length : ℚ))
            / (text.length : ℚ) < 1) := by
  intro text env hstop
  have key : ∀ k, k < text.length →
      ((type_text text env).observations.map (fun o => o.1))[k]?
        = some (((retCount env 0 (k+1) : Nat) : ℚ) / (text.length : ℚ)) := by
    intro k hk
    have hstop' : ∀ j, j ≤ k → (env (0 + j)).stopTop = false := by
      intro j hj
      rw [Nat.zero_add]
      exact hstop j (by omega)
    have hp := typeTextGo_progress env text.length text 0 0 k hk hstop'
    rw [Nat.zero_add] at hp
    exact hp
  refine ⟨key, ?_, ?_⟩
  · intro k hk hraise
    have h := key k hk
    have hrc : retCount env 0 (k+1) = retCount env 0 k := by
      rw [retCount_succ_right env k 0, Nat.zero_add, hraise]
      simp [isReturns]
    rw [h, hrc]
  · intro hR
    have hra : retCount env 0 text.length + raiseCount env 0 text.length
        = text.length := retCount_add_raiseCount env text.length 0
    have hpos : 0 < text.length := by omega
    have h1' : ∀ j, j < text.length → (env (0 + j)).stopTop = false := by
      intro j hj
      rw [Nat.zero_add]
      exact hstop j hj
    have h3 : text.length < text.length → (env (0 + text.length)).stopTop = true :=
      fun h => absurd h (Nat.lt_irrefl _)
    obtain ⟨l1, _, _, _⟩ :=
      typeTextGo_run env text.length text 0 0 text.length h1' (Nat.le_refl _) h3
    have hlen : ((type_text text env).observations.map (fun o => o.1)).length
        = text.length := by
      rw [List.length_map]
      exact l1
    have hk : text.length - 1 < text.length := by omega
    have hlast := key (text.length - 1) hk
    rw [show text.length - 1 + 1 = text.length from by omega] at hlast
    have hq : ((retCount env 0 text.length : Nat) : ℚ)
        = (text.length : ℚ) - (raiseCount env 0 text.length : ℚ) := by
      have : ((retCount env 0 text.length : Nat) : ℚ)
          + ((raiseCount env 0 text.length : Nat) : ℚ) = (text.length : ℚ) := by
        exact_mod_cast congrArg (fun n : Nat => (n : ℚ)) hra
      linarith
    constructor
    · rw [List.getLast?_eq_getElem?, hlen, hlast, hq]
    · have hnq : (0:ℚ) < (text.length : ℚ) := by exact_mod_cast hpos
      rw [div_lt_one hnq]
      have h1R : (1:ℚ) ≤ (raiseCount env 0 text.length : ℚ) := by
        exact_mod_cast hR
      linarith

/-- Claim C5: `calculate_delay(c, s)` equals `base_delay(s)` times the
factor of `c`'s class: 0.9 Easy, 1.0 Medium, 1.2 Hard, 1.1 Punctuation,
1.3 Special, 1.5 Newline, 1.2 Tab, 1.0 Other. -/
theorem c5_delay_is_base_times_class_factor :
    (∀ (c : Char) (s : Int),
      calculate_delay c s = base_delay s * classFactor (classify c)) ∧
    classFactor CharClass.easy = 9/10 ∧ classFactor CharClass.medium = 1 ∧
    classFactor CharClass.hard = 12/10 ∧
    classFactor CharClass.punctuation = 11/10 ∧
    classFactor CharClass.special = 13/10 ∧
    classFactor CharClass.newline = 15/10 ∧
    classFactor CharClass.tab = 12/10 ∧ classFactor CharClass.other = 1 := by
  refine ⟨?_, rfl, rfl, rfl, rfl, rfl, rfl, rfl, rfl⟩
  intro c s
  unfold calculate_delay
  congr 1
  unfold delay_factor classify
  split_ifs <;> rfl

/-- Claim C6: a character in more than one classification set resolves
to the earliest-checked class (Easy, Medium, Hard, Punctuation, Special,
in that order); newline and tab resolve to their own classes; in
particular ':' (in both the punctuation and the special set) resolves to
Punctuation with factor 1.1. -/
theorem c6_classification_priority :
    (∀ c : Char, c ∈ PUNCTUATION → c ∈ SPECIAL_CHARS →
      classify c = CharClass.punctuation) ∧
    (∀ c : Char, c ∈ EASY_CHARS → classify c = CharClass.easy) ∧
    (∀ c : Char, c ∈ MEDIUM_CHARS → c ∉ EASY_CHARS →
      classify c = CharClass.medium) ∧
    (∀ c : Char, c ∈ HARD_CHARS → c ∉ EASY_CHARS → c ∉ MEDIUM_CHARS →
      classify c = CharClass.hard) ∧
    (∀ c : Char, c ∈ SPECIAL_CHARS → c ∉ EASY_CHARS → c ∉ MEDIUM_CHARS →
      c ∉ HARD_CHARS → c ∉ PUNCTUATION → classify c = CharClass.special) ∧
    classify '\n' = CharClass.newline ∧
    classFactor (classify '\n') = 15/10 ∧
    classify '\t' = CharClass.tab ∧
    classFactor (classify '\t') = 12/10 ∧
    classify ':' = CharClass.punctuation ∧
    classFactor (classify ':') = 11/10 := by
  have hp : ∀ c ∈ PUNCTUATION,
      c ∉ EASY_CHARS ∧ c ∉ MEDIUM_CHARS ∧ c ∉ HARD_CHARS := by decide
  refine ⟨?_, ?_, ?_, ?_, ?_, by decide, rfl, by decide, rfl, by decide, rfl⟩
  · intro c h1 _
    obtain ⟨e1, e2, e3⟩ := hp c h1
    unfold classify
    rw [if_neg e1, if_neg e2, if_neg e3, if_pos h1]
  · intro c h1
    unfold classify
    rw [if_pos h1]
  · intro c h1 e1
    unfold classify
    rw [if_neg e1, if_pos h1]
  · intro c h1 e1 e2
    unfold classify
    rw [if_neg e1, if_neg e2, if_pos h1]
  · intro c h1 e1 e2 e3 e4
    unfold classify
    rw [if_neg e1, if_neg e2, if_neg e3, if_neg e4, if_pos h1]

/-- Claim C7: `is_supported_character` returns true exactly on the union
of ASCII letters, digits, space/tab/newline, the punctuation set and the
special set (which is `SUPPORTED_CHARS`), and false on every other
character, including control characters other than tab and newline and
every code point above 127. -/
theorem c7_supported_characterization :
    (∀ c : Char, is_supported_character c = true ↔ c ∈ SUPPORTED_CHARS) ∧
    (∀ c : Char, c.toNat < 32 → c ≠ '\t' → c ≠ '\n' →
      is_supported_character c = false) ∧
    (∀ c : Char, 127 < c.toNat → is_supported_character c = false) ∧
    is_supported_character 'A' = true ∧
    is_supported_character '\x01' = false ∧
    is_supported_character '€' = false ∧
    is_supported_character '!' = true := by
  have hlow : ∀ c ∈ SUPPORTED_CHARS, c = '\t' ∨ c = '\n' ∨ 32 ≤ c.toNat := by decide
  have hhigh : ∀ c ∈ SUPPORTED_CHARS, c.toNat ≤ 126 := by decide
  refine ⟨?_, ?_, ?_, by decide, by decide, by decide, by decide⟩
  · intro c
    unfold is_supported_character
    split_ifs with h1 h2 h3 <;> simp [h1]
  · intro c h1 h2 h3
    have hn : c ∉ SUPPORTED_CHARS := by
      intro hc
      rcases hlow c hc with h | h | h
      · exact h2 h
      · exact h3 h
      · omega
    unfold is_supported_character
    rw [if_neg hn, if_pos h1]
  · intro c h1
    have hn : c ∉ SUPPORTED_CHARS := by
      intro hc
      have := hhigh c hc
      omega
    unfold is_supported_character
    rw [if_neg hn, if_neg (by omega), if_pos h1]

/-- Claim C8: over speeds 1..10 the base delay is strictly decreasing,
from 0.300s at speed 1 down to 0.020s at speed 10, and every integer
speed outside 1..10 falls back to the speed-5 value 0.120s. -/
theorem c8_base_delay_decreasing_with_fallback :
    (∀ s t : Int, 1 ≤ s → s < t → t ≤ 10 → base_delay t < base_delay s) ∧
    base_delay 1 = 300/1000 ∧ base_delay 10 = 20/1000 ∧
    (∀ s : Int, s < 1 ∨ 10 < s → base_delay s = 120/1000) := by
  refine ⟨?_, rfl, rfl, ?_⟩
  · intro s t h1 h2 h3
    have hs9 : s ≤ 9 := by omega
    interval_cases s <;> interval_cases t <;> norm_num [base_delay, BASE_SPEED]
  · intro s hs
    simp only [base_delay, BASE_SPEED, show s ≠ 1 by omega, show s ≠ 2 by omega,
      show s ≠ 3 by omega, show s ≠ 4 by omega, show s ≠ 5 by omega,
      show s ≠ 6 by omega, show s ≠ 7 by omega, show s ≠ 8 by omega,
      show s ≠ 9 by omega, show s ≠ 10 by omega, if_false, ite_false]
    rfl

/-- Claim C10 counterexample: the Easy set does not contain only
lowercase letters — it contains the space character. -/
theorem c10_counterexample :
    (' ' ∈ EASY_CHARS) ∧ (' '.isLower = false) ∧ ¬('a' ≤ ' ' ∧ ' ' ≤ 'z') := by
  decide

/-- Claim C10 as amended: the Easy, Medium and Hard sets contain only
lowercase letters and (in Easy) the space character; classification is
case-sensitive, so every uppercase ASCII letter and every digit falls
through to the default factor 1.0, e.g. `calculate_delay('E', s)` is
`base_delay(s) * 1.0` while `calculate_delay('e', s)` is
`base_delay(s) * 0.9`. -/
theorem c10_case_sensitive_classification :
    (∀ c : Char, c ∈ EASY_CHARS ++ MEDIUM_CHARS ++ HARD_CHARS →
      ('a' ≤ c ∧ c ≤ 'z') ∨ c = ' ') ∧
    (∀ (c : Char) (s : Int), ('A' ≤ c ∧ c ≤ 'Z') ∨ ('0' ≤ c ∧ c ≤ '9') →
      calculate_delay c s = base_delay s * 1) ∧
    (∀ s : Int, calculate_delay 'E' s = base_delay s * 1) ∧
    (∀ s : Int, calculate_delay 'e' s = base_delay s * (9/10)) := by
  have hE : ∀ x ∈ EASY_CHARS, ¬(('A' ≤ x ∧ x ≤ 'Z') ∨ ('0' ≤ x ∧ x ≤ '9')) := by decide
  have hM : ∀ x ∈ MEDIUM_CHARS, ¬(('A' ≤ x ∧ x ≤ 'Z') ∨ ('0' ≤ x ∧ x ≤ '9')) := by decide
  have hH : ∀ x ∈ HARD_CHARS, ¬(('A' ≤ x ∧ x ≤ 'Z') ∨ ('0' ≤ x ∧ x ≤ '9')) := by decide
  have hP : ∀ x ∈ PUNCTUATION, ¬(('A' ≤ x ∧ x ≤ 'Z') ∨ ('0' ≤ x ∧ x ≤ '9')) := by decide
  have hS : ∀ x ∈ SPECIAL_CHARS, ¬(('A' ≤ x ∧ x ≤ 'Z') ∨ ('0' ≤ x ∧ x ≤ '9')) := by decide
  refine ⟨by decide, ?_, fun s => rfl, fun s => rfl⟩
  intro c s h
  unfold calculate_delay
  congr 1
  unfold delay_factor
  rw [if_neg (fun hc => hE c hc h), if_neg (fun hc => hM c hc h),
    if_neg (fun hc => hH c hc h), if_neg (fun hc => hP c hc h),
    if_neg (fun hc => hS c hc h)]
  rw [if_neg (fun hc : c = '\n' => by revert h; rw [hc]; decide),
    if_neg (fun hc : c = '\t' => by revert h; rw [hc]; decide)]

/-- Witness for C1 (amended): stop becomes set during the pause wait of
position 0 of "ab"; the adapter is still invoked for position 0 and only
for it. -/
theorem c1_witness :
    0 ∈ (type_text ['a', 'b'] envC1W).injected ∧
    (type_text ['a', 'b'] envC1W).injected = List.range (0+1) :=
  c1_stop_during_pause_delivers_current ['a', 'b'] envC1W 0 (by decide)
    (fun j hj => absurd hj (Nat.not_lt_zero j)) (by decide) (by decide) (by decide)
    (fun j hj => by
      unfold envC1W
      rw [if_neg (by omega)])

/-- Witness for C2: stop first observed at the top of step 2 of "abcde". -/
theorem c2_witness :
    (type_text "abcde".toList (envStopAt 2)).observations.length = 2 ∧
    (type_text "abcde".toList (envStopAt 2)).observations.map (fun o => o.2.1)
      = "abcde".toList.take 2 ∧
    (type_text "abcde".toList (envStopAt 2)).injected = List.range 2 ∧
    (type_text "abcde".toList (envStopAt 2)).stopped = true :=
  c2_stop_yields_exact_prefix "abcde".toList (envStopAt 2) 2 (by decide)
    (by decide) (by decide)

/-- Witness for C3: a clean two-character run yields 2 observations with
final progress 1 and outcome Completed. -/
theorem c3_witness :
    (type_text "ab".toList envAllOk).observations.length = "ab".toList.length ∧
    (0 < "ab".toList.length →
      ((type_text "ab".toList envAllOk).observations.map (fun o => o.1)).getLast?
        = some 1) ∧
    (type_text "ab".toList envAllOk).stopped = false :=
  c3_progress_monotone_completion.2.1 "ab".toList envAllOk (by decide) (by decide)

/-- Witness for C4: the failure-accounting characterization applied to
"ab" with the adapter failing at position 0. -/
theorem c4_witness :
    (type_text "ab".toList (envFailAt 0)).observations.length = "ab".toList.length ∧
    (type_text "ab".toList (envFailAt 0)).failed_keys
      = (indexedFrom 0 "ab".toList).filter
          (fun p => !(isSuccessB (envFailAt 0 p.1))) ∧
    (type_text "ab".toList (envFailAt 0)).observations.map (fun o => o.2.2)
      = (indexedFrom 0 "ab".toList).map (fun p => isSuccessB (envFailAt 0 p.1)) ∧
    List.Pairwise (fun a b : Nat × Char => a.1 < b.1)
      (type_text "ab".toList (envFailAt 0)).failed_keys :=
  c4_failures_recorded_run_continues.1 "ab".toList (envFailAt 0) (by decide)

/-- Witness for C9: "abc" with the injection at position 1 raising ends
at progress (3 - 1)/3, strictly below 1. -/
theorem c9_witness :
    ((type_text "abc".toList (envRaiseAt 1)).observations.map (fun o => o.1)).getLast?
      = some ((("abc".toList.length : ℚ)
            - (raiseCount (envRaiseAt 1) 0 "abc".toList.length : ℚ))
          / ("abc".toList.length : ℚ)) ∧
    (("abc".toList.length : ℚ) - (raiseCount (envRaiseAt 1) 0 "abc".toList.length : ℚ))
        / ("abc".toList.length : ℚ) < 1 :=
  (c9_raises_freeze_progress "abc".toList (envRaiseAt 1) (by decide)).2.2 (by decide)

/-- Witness for C6: ':' is in both the punctuation and the special set
and classifies as Punctuation. -/
theorem c6_witness : classify ':' = CharClass.punctuation :=
  c6_classification_priority.1 ':' (by decide) (by decide)

/-- Witness for C7: the control character 0x01 is unsupported. -/
theorem c7_witness : is_supported_character '\x01' = false :=
  c7_supported_characterization.2.1 '\x01' (by decide) (by decide) (by decide)

/-- Witness for C8: speed 3 is faster than speed 2, and speed 0 falls
back to the speed-5 delay. -/
theorem c8_witness : base_delay 3 < base_delay 2 ∧ base_delay 0 = 120/1000 :=
  ⟨c8_base_delay_decreasing_with_fallback.1 2 3 (by decide) (by decide) (by decide),
    c8_base_delay_decreasing_with_fallback.2.2.2 0 (Or.inl (by decide))⟩

/-- Witness for C10 (amended): the uppercase letter 'Q' takes the
default factor 1.0 at speed 4. -/
theorem c10_witness : calculate_delay 'Q' 4 = base_delay 4 * 1 :=
  c10_case_sensitive_classification.2.1 'Q' 4 (Or.inl ⟨by decide, by decide⟩)
